import Mathlib

/-!
# Fetch: layout renderer and collectors of `main.go`

A shallow embedding of the Go program `main.go` and the properties of its
render loop and of its collectors.

Go strings are modelled by the list of their code points (`List Char`), which
covers every string holding valid UTF-8.  The builtin `len` counts the bytes of
the UTF-8 encoding, `utf8.RuneCountInString` counts the code points; the two
differ on the block characters of the built-in logo.

The functions of the Go standard library that `main.go` calls (`fmt.Printf` on
the format `%-*s %s\n`, `strings.TrimRight`, `strings.Split`,
`strings.ReplaceAll`, `strings.TrimSpace`, `strings.Join`,
`time.Duration.String`) are embedded from their Go sources.  The system queries
of the collectors are parameters: each collector is a function of what its
query returns, and a run-time panic is a value of `Except Panic`.
-/

namespace Fetch

/-! ## Strings -/

/-- A Go string holding valid UTF-8, given by its code points. -/
abbrev GoString := List Char

/-- Go's builtin `len` on a string: the number of bytes of its UTF-8 encoding. -/
def len (s : GoString) : Nat :=
  (s.map Char.utf8Size).sum

/-- Go's `utf8.RuneCountInString`: the number of code points. -/
def runeCountInString (s : GoString) : Nat :=
  s.length

/-- Go's `strings.TrimRight(s, cutset)`: `s` without its trailing code points
that occur in `cutset`. -/
def trimRight (s cutset : GoString) : GoString :=
  s.rdropWhile (fun c => cutset.contains c)

/-! ## `fmt.Printf("%-*s %s\n", maxLogoWidth, logoLine, infoLine)` -/

/-- The constant `badWidthString` of `fmt/print.go`, written by `doPrintf` when
the `*` width argument is not accepted. -/
def badWidthString : GoString := "%!(BADWIDTH)".toList

/-- The function `tooLarge` of `fmt/print.go`: with `const max int = 1e6` it
returns `x > max || x < -max`. -/
def tooLarge (x : Int) : Bool :=
  decide (x > 1000000) || decide (x < -1000000)

/-- The function `intFromArg` of `fmt/print.go` on an argument of type `int`:
the number read and whether it is an accepted integer; a number that is
`tooLarge` is replaced by `0` and not accepted. -/
def intFromArg (a : Int) : Int × Bool :=
  if tooLarge a then (0, false) else (a, true)

/-- The method `writePadding` of `fmt/format.go` with the blank as padding byte:
nothing for `n ≤ 0`, otherwise `n` blanks. -/
def writePadding (n : Int) : GoString :=
  if n ≤ 0 then [] else List.replicate n.toNat ' '

/-- The method `padString` of `fmt/format.go`: without a width, or with width
`0`, the operand is written as it is; otherwise it is padded by
`wid - utf8.RuneCountInString(s)` blanks, on the right when the minus flag is
set. -/
def padString (wid : Int) (widPresent minus : Bool) (s : GoString) : GoString :=
  if !widPresent || wid == 0 then s
  else
    let width := wid - (runeCountInString s : Int)
    if !minus then writePadding width ++ s else s ++ writePadding width

/-- The text `doPrintf` writes for the verb `%-*s` with width argument `a` and
operand `s`: the flag `-` sets the minus flag, the width is read by
`intFromArg`, a width that is not accepted writes `badWidthString` and leaves
the verb without width, a negative width is negated, and the operand is written
by `padString`. -/
def fmtStarS (a : Int) (s : GoString) : GoString :=
  let r := intFromArg a
  let bad := if r.2 then [] else badWidthString
  let wid := if r.1 < 0 then -r.1 else r.1
  bad ++ padString wid r.2 true s

/-- The text written by one call `fmt.Printf("%-*s %s\n", w, logoLine, infoLine)`:
the verb `%-*s`, a blank, the verb `%s` without flags or width, a line feed. -/
def printfRow (w : Nat) (logoLine infoLine : GoString) : GoString :=
  fmtStarS (w : Int) logoLine ++ [' '] ++ padString 0 false false infoLine ++ ['\n']

/-! ## The render loop of `main` -/

/-- The function `max` of `main.go`. -/
def max (a b : Nat) : Nat :=
  if a > b then a else b

/-- Lines 60 to 66 of `main`: the running maximum of the byte lengths of the
logo lines without their trailing blanks. -/
def maxLogoWidth (logoLines : List GoString) : Nat :=
  logoLines.foldl
    (fun w line =>
      let trimmedLine := trimRight line [' ']
      if len trimmedLine > w then len trimmedLine else w)
    0

/-- The `logoLine` of iteration `i` (lines 69 to 72). -/
def logoLineAt (logoLines : List GoString) (i : Nat) : GoString :=
  if h : i < logoLines.length then trimRight (logoLines.get ⟨i, h⟩) [' '] else []

/-- The `infoLine` of iteration `i` (lines 74 to 77). -/
def infoLineAt (infoLines : List GoString) (i : Nat) : GoString :=
  if h : i < infoLines.length then infoLines.get ⟨i, h⟩ else []

/-- The loop of lines 68 to 80 started at index `i`, one entry per call of
`Printf`; `fuel` bounds the number of iterations. -/
def renderFrom (logoLines infoLines : List GoString) (w : Nat) : Nat → Nat → List GoString
  | 0, _ => []
  | fuel + 1, i =>
    if i < max logoLines.length infoLines.length then
      printfRow w (logoLineAt logoLines i) (infoLineAt infoLines i)
        :: renderFrom logoLines infoLines w fuel (i + 1)
    else []

/-- Lines 60 to 80 of `main` on the logo lines and info lines: the texts written
to standard output, one per iteration of the render loop. -/
def render (logoLines infoLines : List GoString) : List GoString :=
  renderFrom logoLines infoLines (maxLogoWidth logoLines)
    (max logoLines.length infoLines.length) 0

/-! ## The built-in logo and `main` -/

/-- Go's `strings.Split(s, sep)` for a non-empty separator, scanning from the
left: `skip` counts the code points of a separator still to pass over, `acc`
holds the current piece in reverse. -/
def splitAux (sep : GoString) : Nat → GoString → GoString → List GoString
  | _, acc, [] => [acc.reverse]
  | skip + 1, acc, _ :: rest => splitAux sep skip acc rest
  | 0, acc, c :: rest =>
    if sep.isPrefixOf (c :: rest) then acc.reverse :: splitAux sep (sep.length - 1) [] rest
    else splitAux sep 0 (c :: acc) rest

/-- Go's `strings.Split(s, sep)`; an empty separator splits after each code
point. -/
def split (s sep : GoString) : List GoString :=
  if sep.isEmpty then s.map (fun c => [c]) else splitAux sep 0 [] s

/-- The constant `logo` of `main.go`, a raw string that starts and ends with a
line feed. -/
def logo : GoString :=
  ("\n ██████   ██████  \n████████ ████████ \n████████████████ \n" ++
   " ██████████████  \n  ████████████   \n    ████████     \n" ++
   "      ████       \n       ██        \n").toList

/-- Line 57 of `main`: the lines of the logo. -/
def logoLines : List GoString :=
  split (trimRight logo ['\n']) ['\n']

/-- Go's `strings.Repeat`. -/
def repeatString (s : GoString) (count : Nat) : GoString :=
  (List.replicate count s).flatten

/-- The function `main` on the nine lines its collectors return: the texts
written to standard output. -/
def main (userName osInfo hostName resolutionInfo cpuInfo gpuInfo memInfo diskInfo
    uptime : GoString) : List GoString :=
  let separator := repeatString ['-'] (len userName)
  render logoLines
    [userName, separator, osInfo, hostName, resolutionInfo, cpuInfo, gpuInfo, memInfo,
      diskInfo, uptime]

/-! ## Decimal digits and `time.Duration.String` -/

/-- The loop of `time.fmtInt`: the decimal digits of `v` are written in front of
`buf`, last digit first.  A 64-bit value has at most 20 digits. -/
def fmtIntLoop : Nat → Nat → GoString → GoString
  | 0, _, buf => buf
  | fuel + 1, v, buf =>
    if v > 0 then fmtIntLoop fuel (v / 10) (Char.ofNat (v % 10 + 48) :: buf) else buf

/-- Go's `time.fmtInt`: writes `v` in decimal in front of `buf`. -/
def fmtInt (buf : GoString) (v : Nat) : GoString :=
  if v = 0 then '0' :: buf else fmtIntLoop 20 v buf

/-- The loop of `time.fmtFrac`: `prec` digits are taken off `v`, trailing zeros
are not written. -/
def fmtFracLoop : Nat → Nat → Bool → GoString → GoString × Nat × Bool
  | 0, v, print, buf => (buf, v, print)
  | prec + 1, v, print, buf =>
    let digit := v % 10
    let print1 := print || decide (digit ≠ 0)
    fmtFracLoop prec (v / 10) print1 (if print1 then Char.ofNat (digit + 48) :: buf else buf)

/-- Go's `time.fmtFrac`: writes the fraction `v / 10^prec` in front of `buf`
without trailing zeros and returns the integer part. -/
def fmtFrac (buf : GoString) (v : Nat) (prec : Nat) : GoString × Nat :=
  let r := fmtFracLoop prec v false buf
  (if r.2.2 then '.' :: r.1 else r.1, r.2.1)

/-- Go's `time.Duration.String` on a duration of `d` nanoseconds. -/
def durationString (d : Int) : GoString :=
  let u := d.natAbs
  let neg := decide (d < 0)
  let sign := fun (buf : GoString) => if neg then '-' :: buf else buf
  if u < 1000000000 then
    if u = 0 then ['0', 's']
    else if u < 1000 then
      sign (fmtInt (fmtFrac ['n', 's'] u 0).1 (fmtFrac ['n', 's'] u 0).2)
    else if u < 1000000 then
      sign (fmtInt (fmtFrac ['µ', 's'] u 3).1 (fmtFrac ['µ', 's'] u 3).2)
    else
      sign (fmtInt (fmtFrac ['m', 's'] u 6).1 (fmtFrac ['m', 's'] u 6).2)
  else
    let r := fmtFrac ['s'] u 9
    let buf := fmtInt r.1 (r.2 % 60)
    let u1 := r.2 / 60
    if u1 > 0 then
      let buf1 := fmtInt ('m' :: buf) (u1 % 60)
      let u2 := u1 / 60
      if u2 > 0 then sign (fmtInt ('h' :: buf1) u2) else sign buf1
    else sign buf

/-! ## `getUptime` -/

/-- Go's `strings.ReplaceAll(s, old, new)` for a non-empty `old`, scanning from
the left: `skip` counts the code points of a match still to pass over. -/
def replaceAllAux (old new : GoString) : Nat → GoString → GoString
  | _, [] => []
  | skip + 1, _ :: rest => replaceAllAux old new skip rest
  | 0, c :: rest =>
    if old.isPrefixOf (c :: rest) then new ++ replaceAllAux old new (old.length - 1) rest
    else c :: replaceAllAux old new 0 rest

/-- Go's `strings.ReplaceAll(s, old, new)`; an empty `old` matches before each
code point and at the end. -/
def replaceAll (s old new : GoString) : GoString :=
  if old.isEmpty then new ++ s.flatMap (fun c => c :: new) else replaceAllAux old new 0 s

/-- Go's `unicode.IsSpace`. -/
def isSpace (c : Char) : Bool :=
  let r := c.toNat
  if r ≤ 0xFF then
    r == 0x09 || r == 0x0A || r == 0x0B || r == 0x0C || r == 0x0D || r == 0x20
      || r == 0x85 || r == 0xA0
  else
    r == 0x1680 || (decide (0x2000 ≤ r) && decide (r ≤ 0x200A)) || r == 0x2028 || r == 0x2029
      || r == 0x202F || r == 0x205F || r == 0x3000

/-- Go's `strings.TrimSpace`. -/
def trimSpace (s : GoString) : GoString :=
  (s.dropWhile isSpace).rdropWhile isSpace

/-- The conversion of a `uint64` bit pattern to `int64`. -/
def toInt64 (x : Nat) : Int :=
  if x % 2 ^ 64 < 2 ^ 63 then ((x % 2 ^ 64 : Nat) : Int) else ((x % 2 ^ 64 : Nat) : Int) - 2 ^ 64

/-- The function `getUptime` on the value `uptimeSec` returned by `host.Uptime`:
`time.Duration(uptimeSec) * time.Second` is computed in 64 bits. -/
def getUptime (uptimeSec : Nat) : GoString :=
  let uptime := toInt64 (uptimeSec % 2 ^ 64 * 1000000000)
  let uptimeStr := durationString uptime
  let uptimeStr := replaceAll uptimeStr ['h'] ['h', ' ']
  let uptimeStr := replaceAll uptimeStr ['m'] ['m', ' ']
  let uptimeStr := replaceAll uptimeStr ['s'] ['s', ' ']
  let uptimeStr := trimSpace uptimeStr
  "Uptime: ".toList ++ uptimeStr

/-! ## The other collectors -/

/-- A run-time panic of the Go program. -/
inductive Panic where
  | indexOutOfRange
  | nilDereference
  deriving DecidableEq

/-- The verb `%d` on a non-negative integer: its decimal digits. -/
def fmtD (v : Nat) : GoString :=
  fmtInt [] v

/-- The function `getUserName`; `currentUser` is the `Username` of the user
returned by `user.Current`, or `none` when that call returns an error. -/
def getUserName (currentUser : Option GoString) : Except Panic GoString :=
  match currentUser with
  | none => .ok "User: Not available".toList
  | some name =>
    let parts := split name ['\\']
    match parts[parts.length - 1]? with
    | none => .error .indexOutOfRange
    | some username => .ok ("User: ".toList ++ username)

/-- The function `getOSInfo`; the two arguments are the strings returned by
`GetStringValue`, empty when the registry read fails. -/
def getOSInfo (productName buildNumber : GoString) : GoString :=
  "OS: ".toList ++ productName ++ " (Build ".toList ++ buildNumber ++ ")".toList

/-- The function `getHostNameInfo`; `hostname` is `none` when `os.Hostname`
returns an error. -/
def getHostNameInfo (hostname : Option GoString) : GoString :=
  match hostname with
  | none => "Host: Not available".toList
  | some h => "Host: ".toList ++ h

/-- The function `getResolutionInfo`; `hdc` is the handle returned by `GetDC`,
`width` and `height` the values returned by `GetDeviceCaps`. -/
def getResolutionInfo (hdc width height : Nat) : GoString :=
  if hdc = 0 then "Resolution: Not available".toList
  else "Resolution: ".toList ++ fmtD width ++ ['x'] ++ fmtD height

/-- The function `getCPUInfo`; `cpuModel` holds the `ModelName` of each entry
returned by `cpu.Info` (the error is dropped), `cores` is `runtime.NumCPU()`. -/
def getCPUInfo (cpuModel : List GoString) (cores : Nat) : Except Panic GoString :=
  match cpuModel[0]? with
  | none => .error .indexOutOfRange
  | some modelName =>
    .ok ("CPU: ".toList ++ modelName ++ " (".toList ++ fmtD cores ++ " cores)".toList)

/-- The fields `Total` and `Used` of `mem.VirtualMemoryStat` and of
`disk.UsageStat`. -/
structure UsageStat where
  Total : Nat
  Used : Nat

/-- The function `getMemoryInfo`; `memStat` is the pointer returned by
`mem.VirtualMemory` (the error is dropped), `none` for `nil`. -/
def getMemoryInfo (memStat : Option UsageStat) : Except Panic GoString :=
  match memStat with
  | none => .error .nilDereference
  | some st =>
    let total := st.Total / (1024 * 1024 * 1024)
    let used := st.Used / (1024 * 1024 * 1024)
    .ok ("Memory: ".toList ++ fmtD used ++ "GB / ".toList ++ fmtD total ++ "GB".toList)

/-- The function `getDiskInfo`; `diskStat` is the pointer returned by
`disk.Usage("C:")` (the error is dropped), `none` for `nil`. -/
def getDiskInfo (diskStat : Option UsageStat) : Except Panic GoString :=
  match diskStat with
  | none => .error .nilDereference
  | some st =>
    let total := st.Total / (1024 * 1024 * 1024)
    let used := st.Used / (1024 * 1024 * 1024)
    .ok ("Disk (C:): ".toList ++ fmtD used ++ "GB / ".toList ++ fmtD total ++ "GB".toList)

/-- The local type `Win32_VideoController` of `getGPUInfo`. -/
structure Win32_VideoController where
  Name : GoString

/-- Go's `strings.Join`. -/
def join (elems : List GoString) (sep : GoString) : GoString :=
  match elems with
  | [] => []
  | [e] => e
  | e :: rest => rest.foldl (fun b s => b ++ sep ++ s) e

/-- The function `getGPUInfo`; `err` tells whether `wmi.Query` returned an
error, `gpus` is the slice it filled. -/
def getGPUInfo (err : Bool) (gpus : List Win32_VideoController) : GoString :=
  if err then "GPU: Not available".toList
  else
    let gpuNames := gpus.foldl
      (fun (names : List GoString) gpu => if gpu.Name ≠ [] then names ++ [gpu.Name] else names) []
    if gpuNames.length = 0 then "GPU: Not detected".toList
    else "GPU: ".toList ++ join gpuNames ", ".toList

/-! ## The row format in the words of the specification -/

/-- Right-padding with blanks to `w` code points. -/
def padRight (s : GoString) (w : Nat) : GoString :=
  s ++ List.replicate (w - s.length) ' '

/-- The largest byte length of a logo line without its trailing blanks, `0` for
an empty logo. -/
def specWidth (logo : List GoString) : Nat :=
  (logo.map (fun line => len (trimRight line [' ']))).foldr Max.max 0

/-- The row the specification describes for index `i`, followed by the line
terminator: the padded logo line, a blank, the info line. -/
def specRow (logo info : List GoString) (i : Nat) : GoString :=
  padRight ((logo[i]?.map (fun line => trimRight line [' '])).getD []) (specWidth logo)
    ++ [' '] ++ (info[i]?).getD [] ++ ['\n']

/-! ## Lemmas on strings and on the loop -/

theorem max_eq (a b : Nat) : max a b = Max.max a b := by
  unfold max
  split <;> omega

theorem runeCount_le_len (s : GoString) : runeCountInString s ≤ len s := by
  induction s with
  | nil => simp [runeCountInString, len]
  | cons c t ih =>
    have hc : 0 < c.utf8Size := Char.utf8Size_pos c
    simp only [runeCountInString, len, List.length_cons, List.map_cons, List.sum_cons] at ih ⊢
    omega

theorem foldl_width (logo : List GoString) (a : Nat) :
    logo.foldl
      (fun w line =>
        let trimmedLine := trimRight line [' ']
        if len trimmedLine > w then len trimmedLine else w) a
      = Max.max a (specWidth logo) := by
  induction logo generalizing a with
  | nil => simp [specWidth]
  | cons l t ih =>
    simp only [List.foldl_cons, ih, specWidth, List.map_cons, List.foldr_cons]
    split <;> omega

theorem maxLogoWidth_eq (logo : List GoString) : maxLogoWidth logo = specWidth logo := by
  unfold maxLogoWidth
  rw [foldl_width]
  omega

theorem len_le_specWidth (logo : List GoString) (line : GoString) (h : line ∈ logo) :
    len (trimRight line [' ']) ≤ specWidth logo := by
  induction logo with
  | nil => simp at h
  | cons l t ih =>
    simp only [specWidth, List.map_cons, List.foldr_cons] at ih ⊢
    rcases List.mem_cons.mp h with h1 | h1
    · subst h1
      omega
    · have := ih h1
      omega

theorem logoLineAt_eq (logo : List GoString) (i : Nat) :
    logoLineAt logo i = (logo[i]?.map (fun line => trimRight line [' '])).getD [] := by
  unfold logoLineAt
  split
  · next h => simp [List.getElem?_eq_getElem h]
  · next h => simp [List.getElem?_eq_none (Nat.le_of_not_lt h)]

theorem infoLineAt_eq (info : List GoString) (i : Nat) :
    infoLineAt info i = (info[i]?).getD [] := by
  unfold infoLineAt
  split
  · next h => simp [List.getElem?_eq_getElem h]
  · next h => simp [List.getElem?_eq_none (Nat.le_of_not_lt h)]

theorem len_logoLineAt_le (logo : List GoString) (i : Nat) :
    len (logoLineAt logo i) ≤ specWidth logo := by
  unfold logoLineAt
  split
  · next h => exact len_le_specWidth logo _ (List.get_mem logo i h)
  · simp [len]

theorem renderFrom_length (logo info : List GoString) (w : Nat) :
    ∀ fuel i : Nat, i + fuel ≤ max logo.length info.length →
      (renderFrom logo info w fuel i).length = fuel := by
  intro fuel
  induction fuel with
  | zero => intro i _; rfl
  | succ n ih =>
    intro i h
    have hi : i < max logo.length info.length := by omega
    simp only [renderFrom, hi, if_true, List.length_cons]
    rw [ih (i + 1) (by omega)]

theorem renderFrom_getElem? (logo info : List GoString) (w : Nat) :
    ∀ fuel i k : Nat, i + fuel ≤ max logo.length info.length → k < fuel →
      (renderFrom logo info w fuel i)[k]?
        = some (printfRow w (logoLineAt logo (i + k)) (infoLineAt info (i + k))) := by
  intro fuel
  induction fuel with
  | zero => intro i k _ hk; omega
  | succ n ih =>
    intro i k h hk
    have hi : i < max logo.length info.length := by omega
    simp only [renderFrom, hi, if_true]
    cases k with
    | zero => simp
    | succ k =>
      rw [List.getElem?_cons_succ, ih (i + 1) k (by omega) (by omega)]
      congr 3 <;> omega

theorem render_length_eq (logo info : List GoString) :
    (render logo info).length = Max.max logo.length info.length := by
  unfold render
  rw [renderFrom_length logo info _ _ 0 (by omega), max_eq]

theorem render_getElem? (logo info : List GoString) (i : Nat)
    (hi : i < Max.max logo.length info.length) :
    (render logo info)[i]?
      = some (printfRow (maxLogoWidth logo) (logoLineAt logo i) (infoLineAt info i)) := by
  unfold render
  rw [renderFrom_getElem? logo info _ _ 0 i (by omega) (by rw [max_eq]; exact hi)]
  simp

theorem fmtStarS_of_le (w : Nat) (s : GoString) (hw : w ≤ 1000000) :
    fmtStarS (w : Int) s = padRight s w := by
  have h1 : tooLarge (w : Int) = false := by
    simp only [tooLarge, Bool.or_eq_false_iff, decide_eq_false_iff_not]
    omega
  have h2 : ¬ ((w : Int) < 0) := by omega
  simp only [fmtStarS, intFromArg, h1, h2, if_false, if_true, Bool.false_eq_true,
    List.nil_append, padString, padRight, runeCountInString, writePadding]
  by_cases h0 : w = 0
  · subst h0
    simp
  · have h3 : ((w : Int) == 0) = false := by
      simp only [beq_eq_false_iff_ne, ne_eq]
      omega
    simp only [h3, Bool.not_true, Bool.or_false, Bool.false_eq_true, if_false]
    by_cases h4 : (w : Int) - (s.length : Int) ≤ 0
    · have h5 : w - s.length = 0 := by omega
      simp [h4, h5]
    · have h5 : ((w : Int) - (s.length : Int)).toNat = w - s.length := by omega
      simp [h4, h5]

theorem fmtStarS_of_gt (w : Nat) (s : GoString) (hw : 1000000 < w) :
    fmtStarS (w : Int) s = badWidthString ++ s := by
  have h1 : tooLarge (w : Int) = true := by
    simp only [tooLarge, Bool.or_eq_true, decide_eq_true_eq]
    omega
  simp [fmtStarS, intFromArg, h1, padString]

theorem padRight_length (s : GoString) (w : Nat) (h : s.length ≤ w) :
    (padRight s w).length = w := by
  simp only [padRight, List.length_append, List.length_replicate]
  omega

theorem trimRight_replicate_of_ne (n : Nat) (c : Char) (h : c ≠ ' ') :
    trimRight (List.replicate n c) [' '] = List.replicate n c := by
  unfold trimRight
  rw [List.rdropWhile_eq_self_iff]
  intro hl
  have hm : (List.replicate n c).getLast hl ∈ List.replicate n c := List.getLast_mem hl
  rw [List.eq_of_mem_replicate hm]
  simpa using h

theorem len_replicate_a (n : Nat) (c : Char) (h : c.utf8Size = 1) :
    len (List.replicate n c) = n := by
  simp [len, List.map_replicate, List.sum_replicate, h]

theorem trimRight_append_blanks (s : GoString) (k : Nat) :
    trimRight (trimRight s [' '] ++ List.replicate k ' ') [' '] = trimRight s [' '] := by
  induction k with
  | zero => simp only [List.replicate_zero, List.append_nil, trimRight, List.rdropWhile_idempotent]
  | succ k ih =>
    rw [List.replicate_succ', ← List.append_assoc]
    unfold trimRight at ih ⊢
    rw [List.rdropWhile_concat_pos _ _ _ (by simp)]
    exact ih

theorem wide_width (n : Nat) (c : Char) (hc : c ≠ ' ') (hs : c.utf8Size = 1) :
    maxLogoWidth [List.replicate n c] = n := by
  rw [maxLogoWidth_eq]
  simp [specWidth, trimRight_replicate_of_ne n c hc, len_replicate_a n c hs]

theorem wide_row (n : Nat) (c : Char) (hc : c ≠ ' ') (hs : c.utf8Size = 1) (hn : 1000000 < n)
    (info : List GoString) :
    (render [List.replicate n c] info)[0]?
      = some (badWidthString ++ List.replicate n c ++ [' '] ++ infoLineAt info 0 ++ ['\n']) := by
  rw [render_getElem? _ _ 0 (by simp), wide_width n c hc hs]
  simp [printfRow, fmtStarS_of_gt n _ hn, logoLineAt, trimRight_replicate_of_ne n c hc,
    padString]

theorem wide_specRow (n : Nat) (c : Char) (hc : c ≠ ' ') (hs : c.utf8Size = 1)
    (info : List GoString) :
    specRow [List.replicate n c] info 0
      = List.replicate n c ++ [' '] ++ infoLineAt info 0 ++ ['\n'] := by
  have hw : specWidth [List.replicate n c] = n := by
    rw [← maxLogoWidth_eq, wide_width n c hc hs]
  simp [specRow, padRight, trimRight_replicate_of_ne n c hc, infoLineAt_eq, hw]

theorem printfRow_of_le (w : Nat) (logoLine infoLine : GoString) (hw : w ≤ 1000000) :
    printfRow w logoLine infoLine = padRight logoLine w ++ [' '] ++ infoLine ++ ['\n'] := by
  simp [printfRow, fmtStarS_of_le w logoLine hw, padString]

theorem runeCount_logoLineAt_le (logo : List GoString) (i : Nat) :
    (logoLineAt logo i).length ≤ maxLogoWidth logo := by
  have h1 := runeCount_le_len (logoLineAt logo i)
  have h2 := len_logoLineAt_le logo i
  rw [maxLogoWidth_eq]
  unfold runeCountInString at h1
  omega

theorem wide_row_nil (n : Nat) (c : Char) (hc : c ≠ ' ') (hs : c.utf8Size = 1)
    (hn : 1000000 < n) :
    (render [List.replicate n c] [])[0]?
      = some (badWidthString ++ List.replicate n c ++ [' ', '\n']) := by
  rw [wide_row n c hc hs hn]
  simp [infoLineAt]

theorem wide_ne (n : Nat) (c : Char) (hc : c ≠ '%') (hn : 0 < n) (x y : GoString) :
    badWidthString ++ (List.replicate n c ++ x) ≠ List.replicate n c ++ y := by
  cases n with
  | zero => omega
  | succ k =>
    intro h
    have h1 : badWidthString = '%' :: "!(BADWIDTH)".toList := by decide
    rw [h1, List.replicate_succ] at h
    simp only [List.cons_append, List.cons.injEq] at h
    exact hc h.1.symm

/-! ## The render loop: claims C1 to C7 -/

/-- C1 (amended): when the width computed from the logo is at most 1000000, then
for every index `i` below the larger of the two lengths the `i`-th text written
by the render loop is the logo line of that index without its trailing blanks
(empty past the end of the logo), right-padded with blanks to the width, then a
blank, then the info line of that index (empty past the end of the info), then
the line terminator; the width is the largest byte length of a logo line without
its trailing blanks, and the padding counts code points. -/
theorem render_row (logo info : List GoString) (i : Nat)
    (hw : specWidth logo ≤ 1000000) (hi : i < Max.max logo.length info.length) :
    (render logo info)[i]? = some (specRow logo info i) := by
  rw [render_getElem? logo info i hi, maxLogoWidth_eq, printfRow_of_le _ _ _ hw, specRow,
    logoLineAt_eq, infoLineAt_eq]

/-- Witness of C1: the third row of the example of the specification. -/
theorem render_row_witness :
    specWidth ["AB ".toList, "C".toList] ≤ 1000000
      ∧ 2 < Max.max ["AB ".toList, "C".toList].length
          ["x".toList, "y".toList, "z".toList].length
      ∧ (render ["AB ".toList, "C".toList] ["x".toList, "y".toList, "z".toList])[2]?
          = some (specRow ["AB ".toList, "C".toList] ["x".toList, "y".toList, "z".toList] 2) :=
  ⟨by decide, by decide, render_row _ _ 2 (by decide) (by decide)⟩

/-- C1 fails as stated: for a logo of one line of 1000001 letters `a` the width
is 1000001, which `Printf` rejects, and the row written starts with
`%!(BADWIDTH)` and not with the padded logo line. -/
theorem render_row_badwidth :
    (render [List.replicate 1000001 'a'] [])[0]?
        = some (badWidthString ++ List.replicate 1000001 'a' ++ [' ', '\n'])
      ∧ (render [List.replicate 1000001 'a'] [])[0]?
        ≠ some (specRow [List.replicate 1000001 'a'] [] 0) := by
  refine ⟨wide_row_nil 1000001 'a' (by decide) (by decide) (by decide), ?_⟩
  rw [wide_row 1000001 'a' (by decide) (by decide) (by decide),
    wide_specRow 1000001 'a' (by decide) (by decide)]
  intro h
  rw [Option.some.injEq, List.append_assoc, List.append_assoc, List.append_assoc,
    List.append_assoc, List.append_assoc] at h
  exact wide_ne 1000001 'a' (by decide) (by decide) _ _ h

/-- C2: the render loop writes as many rows as the longer of the two sequences
has lines, and none when both are empty. -/
theorem render_length (logo info : List GoString) :
    (render logo info).length = Max.max logo.length info.length ∧ render [] [] = [] := by
  exact ⟨render_length_eq logo info, rfl⟩

/-- C3: on the logo `AB ` and `C` with the info lines `x`, `y`, `z` the width is 2
and the rows written are `AB x`, `C  y` and three blanks before `z`, each with
its line terminator, in that order. -/
theorem render_example :
    maxLogoWidth ["AB ".toList, "C".toList] = 2
      ∧ render ["AB ".toList, "C".toList] ["x".toList, "y".toList, "z".toList]
          = ["AB x\n".toList, "C  y\n".toList, "   z\n".toList] := by
  decide

/-- C4 (amended): when the width computed in `main` is at most 1000000, every row
is the text written for the logo line, then a blank, the info line and the line
terminator, and the text written for the logo line has exactly `width` code
points, so that the info line starts after `width + 1` code points in every
row. -/
theorem render_logo_part_width (logo info : List GoString) (i : Nat)
    (hw : maxLogoWidth logo ≤ 1000000) (hi : i < Max.max logo.length info.length) :
    (render logo info)[i]?
        = some (fmtStarS (maxLogoWidth logo) (logoLineAt logo i) ++ [' ']
            ++ infoLineAt info i ++ ['\n'])
      ∧ runeCountInString (fmtStarS (maxLogoWidth logo) (logoLineAt logo i))
        = maxLogoWidth logo := by
  constructor
  · rw [render_getElem? logo info i hi]
    simp [printfRow, padString]
  · rw [fmtStarS_of_le _ _ hw]
    exact padRight_length _ _ (runeCount_logoLineAt_le logo i)

/-- Witness of C4: the second row of the built-in logo, whose lines hold block
characters of three bytes each. -/
theorem render_logo_part_width_witness :
    maxLogoWidth logoLines ≤ 1000000
      ∧ 2 < Max.max logoLines.length ["x".toList].length
      ∧ (render logoLines ["x".toList])[2]?
          = some (fmtStarS (maxLogoWidth logoLines) (logoLineAt logoLines 2) ++ [' ']
              ++ infoLineAt ["x".toList] 2 ++ ['\n'])
      ∧ runeCountInString (fmtStarS (maxLogoWidth logoLines) (logoLineAt logoLines 2))
          = maxLogoWidth logoLines :=
  ⟨by decide, by decide, render_logo_part_width logoLines ["x".toList] 2 (by decide) (by decide)⟩

/-- C4 fails as stated: for a logo of one line of 1000001 letters `b` and the
info line `x`, the row written cannot be split into a prefix of `width` code
points, a blank, the info line and the line terminator. -/
theorem render_logo_part_width_badwidth :
    ¬ ∃ pre : GoString,
        (render [List.replicate 1000001 'b'] ["x".toList])[0]?
            = some (pre ++ [' '] ++ "x".toList ++ ['\n'])
          ∧ runeCountInString pre = maxLogoWidth [List.replicate 1000001 'b'] := by
  rintro ⟨pre, h1, h2⟩
  rw [wide_row 1000001 'b' (by decide) (by decide) (by decide)] at h1
  rw [wide_width 1000001 'b' (by decide) (by decide)] at h2
  have h3 : infoLineAt ["x".toList] 0 = "x".toList := by decide
  rw [h3, Option.some.injEq, List.append_left_inj, List.append_left_inj,
    List.append_left_inj] at h1
  have h4 := congrArg List.length h1
  simp only [List.length_append, List.length_replicate, badWidthString] at h4
  unfold runeCountInString at h2
  have h5 : "%!(BADWIDTH)".toList.length = 12 := by decide
  omega

/-- C5 (the code at its input): for the built-in logo the width that `main`
computes is 49, the byte length of the second logo line, while no logo line has
more than 17 code points once its trailing blanks are stripped; the second logo
line, of 17 code points, is written padded to 49 code points. -/
theorem builtin_logo_width :
    maxLogoWidth logoLines = 49
      ∧ (logoLines.map (fun line => runeCountInString (trimRight line [' ']))).foldr Max.max 0
          = 17
      ∧ runeCountInString (logoLineAt logoLines 2) = 17
      ∧ len (logoLineAt logoLines 2) = 49
      ∧ runeCountInString (fmtStarS (maxLogoWidth logoLines) (logoLineAt logoLines 2)) = 49 := by
  decide

/-- C6 (amended): when the info is empty and the width computed in `main` is at
most 1000000, the row of every logo line is that line without its trailing
blanks, followed by the padding blanks up to the width, the separating blank and
the line terminator; stripping the trailing blanks of the row gives back the
stripped logo line. -/
theorem render_empty_info (logo : List GoString) (i : Nat)
    (hw : maxLogoWidth logo ≤ 1000000) (hi : i < logo.length) :
    (render logo [])[i]?
        = some (trimRight (logo.get ⟨i, hi⟩) [' ']
            ++ List.replicate
                (maxLogoWidth logo - runeCountInString (trimRight (logo.get ⟨i, hi⟩) [' ']) + 1) ' '
            ++ ['\n'])
      ∧ trimRight (trimRight (logo.get ⟨i, hi⟩) [' ']
            ++ List.replicate
                (maxLogoWidth logo - runeCountInString (trimRight (logo.get ⟨i, hi⟩) [' ']) + 1) ' ')
          [' ']
        = trimRight (logo.get ⟨i, hi⟩) [' '] := by
  constructor
  · rw [render_getElem? logo [] i (by simp; omega), printfRow_of_le _ _ _ hw]
    simp [logoLineAt, hi, infoLineAt, padRight, runeCountInString, List.replicate_succ']
  · exact trimRight_append_blanks _ _

/-- Witness of C6: the second line of the example logo, with no info. -/
theorem render_empty_info_witness :
    maxLogoWidth ["AB ".toList, "C".toList] ≤ 1000000
      ∧ (render ["AB ".toList, "C".toList] [])[1]? = some "C  \n".toList :=
  ⟨by decide, (render_empty_info ["AB ".toList, "C".toList] 1 (by decide) (by decide)).1⟩

/-- C6 fails as stated: on the logo of the single line `A` with no info the row
written is `A` followed by a blank, not `A` alone; and on a logo of one line of
1000001 letters `c` the row starts with `%!(BADWIDTH)`. -/
theorem render_empty_info_trailing :
    render ["A".toList] [] = ["A \n".toList]
      ∧ render ["A".toList] [] ≠ ["A\n".toList]
      ∧ (render [List.replicate 1000001 'c'] [])[0]?
          = some (badWidthString ++ List.replicate 1000001 'c' ++ [' ', '\n']) := by
  exact ⟨by decide, by decide, wide_row_nil 1000001 'c' (by decide) (by decide) (by decide)⟩

/-- C7: when the logo is empty the width is 0, there is one row per info line,
and the row of index `i` is the empty text written for the absent logo line, the
separating blank, the info line of index `i` and the line terminator. -/
theorem render_empty_logo (info : List GoString) (i : Nat) (hi : i < info.length) :
    maxLogoWidth [] = 0
      ∧ (render [] info).length = info.length
      ∧ fmtStarS (maxLogoWidth []) (logoLineAt [] i) = []
      ∧ (render [] info)[i]? = some ([] ++ [' '] ++ info.get ⟨i, hi⟩ ++ ['\n']) := by
  refine ⟨rfl, ?_, ?_, ?_⟩
  · rw [render_length_eq [] info]
    simp
  · have h0 : maxLogoWidth [] = 0 := rfl
    rw [h0, fmtStarS_of_le 0 _ (by decide)]
    simp [logoLineAt, padRight]
  · rw [render_getElem? [] info i (by simp; omega)]
    have h0 : maxLogoWidth [] = 0 := rfl
    rw [h0, printfRow_of_le 0 _ _ (by decide)]
    simp [logoLineAt, infoLineAt, hi, padRight]

/-- Witness of C7: two info lines and no logo. -/
theorem render_empty_logo_witness :
    1 < ["x".toList, "yz".toList].length
      ∧ (render [] ["x".toList, "yz".toList])[1]? = some " yz\n".toList :=
  ⟨by decide, (render_empty_logo ["x".toList, "yz".toList] 1 (by decide)).2.2.2⟩

/-! ## Lemmas on decimal digits and on `getUptime` -/

theorem ofNat_digit :
    ∀ d < 10, Char.ofNat (d + 48) = Nat.digitChar d
      ∧ Nat.digitChar d ∈ "0123456789".toList := by
  decide

theorem toDigitsCore_acc (F : Nat) : ∀ (n : Nat) (ds : List Char),
    Nat.toDigitsCore 10 F n ds = Nat.toDigitsCore 10 F n [] ++ ds := by
  induction F with
  | zero => intro n ds; simp [Nat.toDigitsCore]
  | succ F ih =>
    intro n ds
    simp only [Nat.toDigitsCore]
    split
    · simp
    · rw [ih (n / 10) (Nat.digitChar (n % 10) :: ds), ih (n / 10) [Nat.digitChar (n % 10)]]
      simp

theorem toDigitsCore_digits (F : Nat) : ∀ (n : Nat),
    ∀ c ∈ Nat.toDigitsCore 10 F n [], c ∈ "0123456789".toList := by
  induction F with
  | zero => intro n c hc; simp [Nat.toDigitsCore] at hc
  | succ F ih =>
    intro n c hc
    have hd := (ofNat_digit (n % 10) (Nat.mod_lt n (by decide))).2
    simp only [Nat.toDigitsCore] at hc
    split at hc
    · rw [List.mem_singleton] at hc
      rw [hc]
      exact hd
    · rw [toDigitsCore_acc, List.mem_append, List.mem_singleton] at hc
      rcases hc with h | h
      · exact ih _ c h
      · rw [h]
        exact hd

theorem toDigits_digits (n : Nat) : ∀ c ∈ Nat.toDigits 10 n, c ∈ "0123456789".toList :=
  toDigitsCore_digits (n + 1) n

theorem toDigits_ne_nil (n : Nat) : Nat.toDigits 10 n ≠ [] := by
  unfold Nat.toDigits
  simp only [Nat.toDigitsCore]
  split
  · simp
  · rw [toDigitsCore_acc]
    simp

theorem fmtIntLoop_eq (fuel : Nat) : ∀ (v : Nat) (buf : GoString) (F : Nat),
    0 < v → v < 10 ^ fuel → v < F →
      fmtIntLoop fuel v buf = Nat.toDigitsCore 10 F v buf := by
  induction fuel with
  | zero => intro v buf F h0 h1 _; simp at h1; omega
  | succ fuel ih =>
    intro v buf F h0 h1 h2
    obtain ⟨F1, rfl⟩ : ∃ F1, F = F1 + 1 := ⟨F - 1, by omega⟩
    have hc := (ofNat_digit (v % 10) (Nat.mod_lt v (by decide))).1
    simp only [fmtIntLoop, h0, if_true, Nat.toDigitsCore, hc]
    by_cases hv : v / 10 = 0
    · simp only [hv, if_true]
      cases fuel <;> simp [fmtIntLoop]
    · simp only [hv, if_false]
      apply ih
      · omega
      · rw [Nat.pow_succ] at h1
        omega
      · omega

theorem fmtInt_eq (buf : GoString) (v : Nat) (h : v < 10 ^ 20) :
    fmtInt buf v = Nat.toDigits 10 v ++ buf := by
  unfold fmtInt
  by_cases hv : v = 0
  · subst hv
    rfl
  · rw [if_neg hv, fmtIntLoop_eq 20 v buf (v + 1) (by omega) h (by omega), toDigitsCore_acc]
    rfl

theorem fmtFracLoop_zero (k : Nat) : ∀ (n : Nat) (buf : GoString),
    fmtFracLoop k (n * 10 ^ k) false buf = (buf, n, false) := by
  induction k with
  | zero => intro n buf; simp [fmtFracLoop]
  | succ k ih =>
    intro n buf
    have h1 : n * 10 ^ (k + 1) % 10 = 0 := by
      rw [Nat.pow_succ, ← Nat.mul_assoc]
      exact Nat.mul_mod_left _ _
    have h2 : n * 10 ^ (k + 1) / 10 = n * 10 ^ k := by
      rw [Nat.pow_succ, ← Nat.mul_assoc]
      exact Nat.mul_div_cancel _ (by decide)
    simp only [fmtFracLoop, h1, h2, ne_eq, not_true_eq_false, decide_False, Bool.or_self,
      Bool.false_eq_true, if_false]
    exact ih n buf

theorem durationString_seconds (n : Nat) (h0 : 0 < n) (h : n < 10 ^ 20) :
    durationString ((n * 1000000000 : Nat) : Int)
      = if 0 < n / 60 then
          if 0 < n / 60 / 60 then
            Nat.toDigits 10 (n / 60 / 60) ++ 'h' ::
              (Nat.toDigits 10 (n / 60 % 60) ++ 'm' :: (Nat.toDigits 10 (n % 60) ++ ['s']))
          else Nat.toDigits 10 (n / 60 % 60) ++ 'm' :: (Nat.toDigits 10 (n % 60) ++ ['s'])
        else Nat.toDigits 10 (n % 60) ++ ['s'] := by
  have hf : fmtFrac ['s'] (n * 1000000000) 9 = (['s'], n) := by
    have := fmtFracLoop_zero 9 n ['s']
    norm_num at this
    simp [fmtFrac, this]
  have hu : ¬ (n * 1000000000 < 1000000000) := by omega
  have hneg : ¬ (((n * 1000000000 : Nat) : Int) < 0) := by omega
  have h1 : n % 60 < 10 ^ 20 := by omega
  have h2 : n / 60 % 60 < 10 ^ 20 := by omega
  have h3 : n / 60 / 60 < 10 ^ 20 := by omega
  simp only [durationString, Int.natAbs_ofNat, hu, if_false, hf, hneg, decide_False,
    Bool.false_eq_true, gt_iff_lt, fmtInt_eq _ _ h1, fmtInt_eq _ _ h2, fmtInt_eq _ _ h3]

theorem replaceAll_single (s : GoString) (c : Char) (new : GoString) :
    replaceAll s [c] new = s.flatMap (fun x => if x = c then new else [x]) := by
  have h : ∀ s : GoString, replaceAllAux [c] new 0 s
      = s.flatMap (fun x => if x = c then new else [x]) := by
    intro s
    induction s with
    | nil => rfl
    | cons x rest ih =>
      simp only [replaceAllAux, List.isPrefixOf, List.length_singleton, Nat.sub_self, ih,
        List.flatMap_cons, Bool.and_true, beq_iff_eq]
      by_cases hx : x = c
      · subst hx
        simp
      · have hx1 : ¬ c = x := fun e => hx e.symm
        simp [hx, hx1]
  simp [replaceAll, h]

theorem flatMap_digits (l : GoString) (hl : ∀ x ∈ l, x ∈ "0123456789".toList) (c : Char)
    (hc : c ∉ "0123456789".toList) (new : GoString) :
    l.flatMap (fun x => if x = c then new else [x]) = l := by
  induction l with
  | nil => rfl
  | cons x rest ih =>
    have hx : x ≠ c := by
      intro e
      subst e
      exact hc (hl x (List.mem_cons_self _ _))
    rw [List.flatMap_cons, if_neg hx, ih (fun y hy => hl y (List.mem_cons_of_mem _ hy))]
    rfl

theorem dropWhile_digits (l rest : GoString) (hl : ∀ x ∈ l, x ∈ "0123456789".toList)
    (h0 : l ≠ []) : (l ++ rest).dropWhile isSpace = l ++ rest := by
  cases l with
  | nil => exact absurd rfl h0
  | cons x t =>
    have hs : ∀ y ∈ "0123456789".toList, isSpace y = false := by decide
    have hx := hs x (hl x (List.mem_cons_self _ _))
    simp [List.dropWhile, hx]

theorem trimSpace_digits (l rest : GoString) (hl : ∀ x ∈ l, x ∈ "0123456789".toList)
    (h0 : l ≠ []) :
    trimSpace (l ++ (rest ++ ['s', ' '])) = l ++ (rest ++ ['s']) := by
  unfold trimSpace
  rw [dropWhile_digits l _ hl h0]
  have e : l ++ (rest ++ ['s', ' ']) = (l ++ rest ++ ['s']) ++ [' '] := by simp
  rw [e, List.rdropWhile_concat_pos _ _ _ (by decide),
    List.rdropWhile_concat_neg _ _ _ (by decide)]
  simp

theorem flatMap_digits_append (l : GoString) (hl : ∀ x ∈ l, x ∈ "0123456789".toList)
    (c : Char) (hc : c ∉ "0123456789".toList) (new rest : GoString) :
    (l ++ rest).flatMap (fun x => if x = c then new else [x])
      = l ++ rest.flatMap (fun x => if x = c then new else [x]) := by
  rw [List.flatMap_append, flatMap_digits l hl c hc]

theorem uptime_int (n : Nat) (hn : n ≤ 9223372036) :
    toInt64 (n % 2 ^ 64 * 1000000000) = ((n * 1000000000 : Nat) : Int) := by
  have h1 : n % 2 ^ 64 = n := Nat.mod_eq_of_lt (by norm_num; omega)
  have h2 : n * 1000000000 % 2 ^ 64 = n * 1000000000 := Nat.mod_eq_of_lt (by norm_num; omega)
  have h3 : n * 1000000000 < 2 ^ 63 := by norm_num; omega
  simp only [toInt64, h1, h2, h3, if_true]

/-! ## `getUptime`: claim C10 -/

/-- C10: for an uptime of `n` whole seconds with `n ≤ 9223372036`, `getUptime`
returns `Uptime: ` followed by the seconds and `s` when `n < 60`, by the minutes,
`m`, a blank, the seconds and `s` when `60 ≤ n < 3600`, and by the hours, `h`, a
blank, the minutes, `m`, a blank, the seconds and `s` when `3600 ≤ n`, where the
hours are `n / 3600`, the minutes `(n / 60) mod 60`, the seconds `n mod 60`, all in
unpadded decimal, and nothing follows the final `s`. -/
theorem getUptime_format (n : Nat) (hn : n ≤ 9223372036) :
    getUptime n = "Uptime: ".toList ++
      (if n < 60 then (Nat.repr (n % 60)).toList ++ ['s']
       else if n < 3600 then
         (Nat.repr (n / 60 % 60)).toList ++ ['m', ' '] ++ (Nat.repr (n % 60)).toList ++ ['s']
       else
         (Nat.repr (n / 3600)).toList ++ ['h', ' '] ++ (Nat.repr (n / 60 % 60)).toList
           ++ ['m', ' '] ++ (Nat.repr (n % 60)).toList ++ ['s']) := by
  have hr : ∀ k : Nat, (Nat.repr k).toList = Nat.toDigits 10 k := fun _ => rfl
  simp only [hr]
  unfold getUptime
  simp only [uptime_int n hn, replaceAll_single]
  congr 1
  by_cases h0 : n = 0
  · subst h0
    decide
  rw [durationString_seconds n (by omega) (by norm_num; omega)]
  have hS := toDigits_digits (n % 60)
  have hM := toDigits_digits (n / 60 % 60)
  have hH := toDigits_digits (n / 60 / 60)
  have A := fun (l : GoString) hl c hc new rest => flatMap_digits_append l hl c hc new rest
  have c1 : ('m' = 'h') = False := by decide
  have c2 : ('s' = 'h') = False := by decide
  have c3 : ('s' = 'm') = False := by decide
  have c4 : ('h' = 'm') = False := by decide
  have c5 : ('h' = 's') = False := by decide
  have c6 : ('m' = 's') = False := by decide
  have c7 : (' ' = 'm') = False := by decide
  have c8 : (' ' = 's') = False := by decide
  by_cases h1 : n < 60
  · have e1 : ¬ (0 < n / 60) := by omega
    rw [if_neg e1, if_pos h1]
    simp only [A _ hS 'h' (by decide), A _ hS 'm' (by decide), A _ hS 's' (by decide),
      List.flatMap_cons, List.flatMap_nil, c1, c2, c3, c4, c5, c6, c7, c8, if_false, if_true,
      List.append_nil, List.cons_append, List.nil_append]
    exact trimSpace_digits (Nat.toDigits 10 (n % 60)) [] hS (toDigits_ne_nil _)
  · have e1 : 0 < n / 60 := by omega
    rw [if_pos e1, if_neg h1]
    by_cases h2 : n < 3600
    · have e2 : ¬ (0 < n / 60 / 60) := by omega
      rw [if_neg e2, if_pos h2]
      simp only [A _ hS 'h' (by decide), A _ hS 'm' (by decide), A _ hS 's' (by decide),
        A _ hM 'h' (by decide), A _ hM 'm' (by decide), A _ hM 's' (by decide),
        List.flatMap_cons, List.flatMap_nil, c1, c2, c3, c4, c5, c6, c7, c8, if_false, if_true,
        List.append_nil, List.cons_append, List.nil_append]
      have key := trimSpace_digits (Nat.toDigits 10 (n / 60 % 60))
        ('m' :: ' ' :: Nat.toDigits 10 (n % 60)) hM (toDigits_ne_nil _)
      simp only [List.cons_append, List.append_assoc, List.nil_append] at key ⊢
      exact key
    · have e2 : 0 < n / 60 / 60 := by omega
      have e3 : n / 60 / 60 = n / 3600 := by omega
      rw [if_pos e2, if_neg h2]
      simp only [A _ hS 'h' (by decide), A _ hS 'm' (by decide), A _ hS 's' (by decide),
        A _ hM 'h' (by decide), A _ hM 'm' (by decide), A _ hM 's' (by decide),
        A _ hH 'h' (by decide), A _ hH 'm' (by decide), A _ hH 's' (by decide),
        List.flatMap_cons, List.flatMap_nil, c1, c2, c3, c4, c5, c6, c7, c8, if_false, if_true,
        List.append_nil, List.cons_append, List.nil_append]
      have key := trimSpace_digits (Nat.toDigits 10 (n / 60 / 60))
        ('h' :: ' ' :: (Nat.toDigits 10 (n / 60 % 60) ++ 'm' :: ' ' :: Nat.toDigits 10 (n % 60)))
        hH (toDigits_ne_nil _)
      simp only [List.cons_append, List.append_assoc, List.nil_append] at key ⊢
      rw [← e3]
      exact key

/-- Witness of C10: an uptime of 3723 seconds. -/
theorem getUptime_format_witness :
    3723 ≤ 9223372036 ∧ getUptime 3723 = "Uptime: 1h 2m 3s".toList
      ∧ getUptime 3600 = "Uptime: 1h 0m 0s".toList
      ∧ getUptime 0 = "Uptime: 0s".toList :=
  ⟨by decide, (getUptime_format 3723 (by decide)).trans (by decide), by decide, by decide⟩

/-! ## Lemmas on the collectors -/

theorem splitAux_ne_nil (sep : GoString) : ∀ (s : GoString) (skip : Nat) (acc : GoString),
    splitAux sep skip acc s ≠ [] := by
  intro s
  induction s with
  | nil => intro skip acc; cases skip <;> simp [splitAux]
  | cons c rest ih =>
    intro skip acc
    cases skip with
    | zero =>
      simp only [splitAux]
      split
      · simp
      · exact ih 0 _
    | succ k =>
      simp only [splitAux]
      exact ih k acc

theorem getUserName_ok (currentUser : Option GoString) :
    ∃ line, getUserName currentUser = .ok line := by
  cases currentUser with
  | none => exact ⟨_, rfl⟩
  | some name =>
    have hne : split name ['\\'] ≠ [] := by
      simp only [split, List.isEmpty_cons, Bool.false_eq_true, if_false]
      exact splitAux_ne_nil _ _ _ _
    have hlt : (split name ['\\']).length - 1 < (split name ['\\']).length := by
      have := List.length_pos.mpr hne
      omega
    refine ⟨"User: ".toList ++ (split name ['\\'])[(split name ['\\']).length - 1], ?_⟩
    simp only [getUserName, List.getElem?_eq_getElem hlt]

theorem gpuNames_foldl (gpus : List Win32_VideoController) : ∀ acc : List GoString,
    gpus.foldl
      (fun (names : List GoString) gpu => if gpu.Name ≠ [] then names ++ [gpu.Name] else names)
      acc
      = acc ++ (gpus.map (fun g => g.Name)).filter (fun name => decide (name ≠ [])) := by
  induction gpus with
  | nil => intro acc; simp
  | cons g t ih =>
    intro acc
    rw [List.foldl_cons, ih]
    by_cases hg : g.Name = []
    · simp [hg]
    · simp [hg]

theorem join_foldl (sep : GoString) : ∀ (rest : List GoString) (b : GoString),
    rest.foldl (fun b s => b ++ sep ++ s) b = b ++ (rest.map (fun s => sep ++ s)).flatten := by
  intro rest
  induction rest with
  | nil => intro b; simp
  | cons x t ih =>
    intro b
    rw [List.foldl_cons, ih]
    simp

theorem intersperse_flatten (sep : GoString) : ∀ (rest : List GoString) (e : GoString),
    (List.intersperse sep (e :: rest)).flatten = e ++ (rest.map (fun s => sep ++ s)).flatten := by
  intro rest
  induction rest with
  | nil => intro e; simp
  | cons x t ih =>
    intro e
    rw [List.intersperse_cons₂, List.flatten_cons, List.flatten_cons, ih x]
    simp

theorem join_eq_intercalate (elems : List GoString) (sep : GoString) :
    join elems sep = sep.intercalate elems := by
  unfold List.intercalate
  match elems with
  | [] => rfl
  | [e] => simp [join]
  | e :: x :: t =>
    rw [join, join_foldl, intersperse_flatten]
    simp

/-! ## The collectors: claims C8 and C9 -/

/-- C8 (the code at its inputs): when `cpu.Info` returns an empty list,
`getCPUInfo` panics on `cpuModel[0]`; when `mem.VirtualMemory` or `disk.Usage`
returns `nil`, `getMemoryInfo` and `getDiskInfo` panic on the field access. -/
theorem collectors_abort (cores : Nat) :
    getCPUInfo [] cores = .error .indexOutOfRange
      ∧ getMemoryInfo none = .error .nilDereference
      ∧ getDiskInfo none = .error .nilDereference :=
  ⟨rfl, rfl, rfl⟩

/-- C9: `getGPUInfo` returns `GPU: Not available` when the query returns an
error; otherwise `GPU: Not detected` when every controller has an empty name
(also for no controller at all); otherwise `GPU: ` followed by the non-empty
names in query order, joined by a comma and a blank. -/
theorem getGPUInfo_spec (err : Bool) (gpus : List Win32_VideoController) :
    getGPUInfo err gpus
      = if err then "GPU: Not available".toList
        else if ∀ g ∈ gpus, g.Name = [] then "GPU: Not detected".toList
        else "GPU: ".toList
          ++ ", ".toList.intercalate
              ((gpus.map (fun g => g.Name)).filter (fun name => decide (name ≠ []))) := by
  unfold getGPUInfo
  cases err with
  | true => rfl
  | false =>
    simp only [Bool.false_eq_true, if_false, gpuNames_foldl, List.nil_append,
      join_eq_intercalate]
    by_cases h : ∀ g ∈ gpus, g.Name = []
    · have h1 : (gpus.map (fun g => g.Name)).filter (fun name => decide (name ≠ [])) = [] := by
        rw [List.filter_eq_nil_iff]
        intro name hname
        obtain ⟨g, hg, rfl⟩ := List.mem_map.mp hname
        simp [h g hg]
      simp [h, h1]
    · have h1 : ((gpus.map (fun g => g.Name)).filter (fun name => decide (name ≠ []))).length
          ≠ 0 := by
        intro h0
        apply h
        intro g hg
        have h2 := List.length_eq_zero.mp h0
        rw [List.filter_eq_nil_iff] at h2
        have h3 := h2 g.Name (List.mem_map.mpr ⟨g, hg, rfl⟩)
        simpa using h3
      rw [if_neg h1, if_neg h]

end Fetch
